import Mathlib

/-!
Verification of `excel_to_i18n_json.py` (Excel → i18n JSON converter).

The converter reads a sheet of an xlsx workbook (shared-string table plus a
list of `<row>` elements, each with an `r` row-number attribute and a list of
`<c>` cells) and regroups the cell texts into a per-language key → text
mapping.  The definitions below are a shallow embedding of that Python code:
strings are lists of characters (Python `str` over code points), Python dicts
are association lists with insertion order preserved (Python 3.7+ dict
semantics), and Python exceptions are an `Except` result.
-/

namespace Excel2Json

/-- Python strings, modelled as lists of characters. -/
abbrev PStr := List Char

/-- Python dict with `Int` keys (the sparse per-row cell mapping). -/
abbrev CellsDict := List (Int × PStr)

/-- Inner dict of the result: text key → translated text. -/
abbrev Dict1 := List (PStr × PStr)

/-- Outer result dict: language tag → inner dict. -/
abbrev Dict2 := List (PStr × Dict1)

/-- The Python exceptions the embedded code can raise. -/
inductive PyErr where
  | valueErr (msg : PStr)
  | indexErr
  deriving DecidableEq, Repr

/-- Lookup in a Python dict (association list with unique keys). -/
def dget {α β : Type} [DecidableEq α] (d : List (α × β)) (k : α) : Option β :=
  match d with
  | [] => none
  | (k', v) :: rest => if k' = k then some v else dget rest k

/-- Python dict assignment `d[k] = v`: replaces the value in place when the
key is present, otherwise appends the new binding (insertion order). -/
def dinsert {α β : Type} [DecidableEq α] (d : List (α × β)) (k : α) (v : β) :
    List (α × β) :=
  match d with
  | [] => [(k, v)]
  | (k', v') :: rest =>
    if k' = k then (k, v) :: rest else (k', v') :: dinsert rest k v

/-- Models `result[lang][k] = v` preceded by
`if lang not in result: result[lang] = ...` (source lines 213-214 and
221-222). -/
def dinsert2 (d : Dict2) (lang k v : PStr) : Dict2 :=
  dinsert d lang (dinsert ((dget d lang).getD []) k v)

/-- Two-level lookup in the result mapping. -/
def lookup2 (d : Dict2) (lang k : PStr) : Option PStr :=
  (dget d lang).bind (fun m => dget m k)

/-- A Python `for` loop whose body may raise: stops at the first error. -/
def foldE {α β : Type} (f : β → α → Except PyErr β) (b : β) (l : List α) :
    Except PyErr β :=
  match l with
  | [] => .ok b
  | a :: rest =>
    match f b a with
    | .ok b' => foldE f b' rest
    | .error e => .error e

/-- Python `str.isalpha` restricted to the ASCII letters that occur in cell
references. -/
def pyIsAlpha (c : Char) : Bool :=
  (65 ≤ c.toNat && c.toNat ≤ 90) || (97 ≤ c.toNat && c.toNat ≤ 122)

/-- Python `str.upper`, character-wise, for ASCII characters. -/
def pyUpperChar (c : Char) : Char :=
  if 97 ≤ c.toNat ∧ c.toNat ≤ 122 then Char.ofNat (c.toNat - 32) else c

/-- Python whitespace stripped by `str.strip` (ASCII range). -/
def isPySpace (c : Char) : Bool :=
  c.toNat = 32 || c.toNat = 9 || c.toNat = 10 ||
    c.toNat = 13 || c.toNat = 11 || c.toNat = 12

/-- Python `str.strip()`: drop whitespace from both ends. -/
def pyStrip (s : PStr) : PStr :=
  ((s.dropWhile isPySpace).reverse.dropWhile isPySpace).reverse

/-- Python `int(s)` on the plain `[sign] digits` forms that occur in
spreadsheet cell data; `none` models a `ValueError`. -/
def digitsVal (s : PStr) : Option Nat :=
  if s = [] then none
  else
    s.foldl
      (fun acc c =>
        match acc with
        | none => none
        | some a =>
          if 48 ≤ c.toNat ∧ c.toNat ≤ 57 then some (a * 10 + (c.toNat - 48))
          else none)
      (some 0)

/-- Python `int(s)` (sign handling); `none` models a `ValueError`. -/
def pyInt (s : PStr) : Option Int :=
  match s with
  | '-' :: rest => (digitsVal rest).map (fun n => -(n : Int))
  | '+' :: rest => (digitsVal rest).map (fun n => (n : Int))
  | _ => (digitsVal s).map (fun n => (n : Int))

/-- Python sequence indexing `l[i]` with negative end-relative indices;
`none` models an `IndexError`. -/
def pyIndex {α : Type} (l : List α) (i : Int) : Option α :=
  if 0 ≤ i then l.get? i.toNat
  else if 0 ≤ (l.length : Int) + i then l.get? ((l.length : Int) + i).toNat
  else none

/-- Embedding of `get_column_index` (source lines 22-28): fold
`index = index * 26 + (ord(char) - ord('A') + 1)` over the uppercased
column reference, then subtract 1. -/
def get_column_index (col_ref : PStr) : Int :=
  ((col_ref.map pyUpperChar).foldl
      (fun index ch => index * 26 + ((ch.toNat : Int) - 65 + 1)) 0) - 1

/-- The bijective base-26 value of a column-letter string as the spec words
it: digits A=1 … Z=26, no zero digit, each further letter multiplies the
accumulated value by 26 (so the value of "AA" is 26*1+1 = 27). -/
def specColumnValue (s : PStr) : Nat :=
  s.foldl (fun a c => a * 26 + (c.toNat - 64)) 0

/-- The inverse of the bijective base-26 numeral mapping: `0` denotes the
empty string, and a positive `n` ends in the digit `(n-1) % 26` (letter
`'A' + (n-1) % 26`) with the remaining letters denoting `(n-1) / 26`. -/
def bijToLetters (n : Nat) : PStr :=
  if h : n = 0 then []
  else bijToLetters ((n - 1) / 26) ++ [Char.ofNat (65 + (n - 1) % 26)]
  termination_by n
  decreasing_by
    exact lt_of_le_of_lt (Nat.div_le_self _ _) (Nat.pred_lt h)

/-- A `<c>` cell element: its `r` reference attribute (e.g. "B2"), its
optional `t` type attribute, and the text of its `<v>` child (`none` when
the node is absent or its text empty, both falsy in the source's check). -/
structure Cell where
  r : PStr
  t : Option PStr
  v : Option PStr
  deriving DecidableEq, Repr

/-- A `<row>` element: its `r` row-number attribute and its cells. -/
structure Row where
  r : Int
  cells : List Cell
  deriving DecidableEq, Repr

/-- One iteration of the cell loop of `parse_row` (source lines 84-100). -/
def parseCellStep (shared : List PStr) (max_col : Int) (d : CellsDict)
    (cell : Cell) : Except PyErr CellsDict :=
  let col_letter := cell.r.filter pyIsAlpha
  let col_idx := get_column_index col_letter
  if col_idx > max_col then .ok d
  else
    match cell.v with
    | none => .ok d
    | some txt =>
      if txt = [] then .ok d
      else if cell.t = some ['s'] then
        match pyInt txt with
        | none => .error (.valueErr ("invalid literal for int".data))
        | some idx =>
          if idx < (shared.length : Int) then
            match pyIndex shared idx with
            | some sv => .ok (dinsert d col_idx sv)
            | none => .error .indexErr
          else .ok d
      else .ok (dinsert d col_idx txt)

/-- Embedding of `parse_row` (source lines 81-102): fold the cells of a row into the
sparse column-index → text mapping. -/
def parse_row (shared : List PStr) (max_col : Int) (cells : List Cell) :
    Except PyErr CellsDict :=
  foldE (parseCellStep shared max_col) [] cells

/-- Models `max(header_cells.keys()) if header_cells else 0` (source line 161). -/
def maxKeys (d : CellsDict) : Int :=
  match d.map Prod.fst with
  | [] => 0
  | x :: xs => xs.foldl max x

/-- Build the headers list (source lines 161-165): positions 0 through the
maximum observed header column, trimmed, empty entries replaced by the
synthetic placeholder `col_<index>`. -/
def buildHeaders (header_cells : CellsDict) : List PStr :=
  (List.range (maxKeys header_cells + 1).toNat).map (fun i =>
    let header := pyStrip ((dget header_cells (Int.ofNat i)).getD [])
    if header ≠ [] then header else "col_".data ++ (Nat.repr i).data)

/-- Language-tag normalization for the abbreviated form:
`header.replace('_r', '-').replace('_', '-')` (source line 177), via the
fuel-driven model of Python `str.replace` below. -/
def pyReplaceF : Nat → PStr → PStr → PStr → PStr
  | 0, s, _, _ => s
  | fuel + 1, s, pat, rep =>
    match s with
    | [] => []
    | c :: cs =>
      if pat ≠ [] ∧ pat.isPrefixOf (c :: cs) then
        rep ++ pyReplaceF fuel (List.drop pat.length (c :: cs)) pat rep
      else c :: pyReplaceF fuel cs pat rep

/-- Python `str.replace` for a non-empty pattern: replace non-overlapping
occurrences left to right.  The fuel `s.length` suffices because every
step consumes at least one character of `s`. -/
def pyReplace (s pat rep : PStr) : PStr :=
  pyReplaceF s.length s pat rep

/-- The tag of a language column (source lines 175-177). -/
def normalizeTag (use_abbrev : Bool) (header : PStr) : PStr :=
  if use_abbrev then pyReplace (pyReplace header "_r".data "-".data) "_".data "-".data
  else header

/-- Whether a header is classified as a language column (source line 173):
non-empty, not the key/default/excluded names, not `col_`-prefixed. -/
def isLangHeader (key_column default_column : PStr) (excl : List PStr)
    (h : PStr) : Bool :=
  h ≠ [] && !(h = key_column || h = default_column || h ∈ excl) &&
    !("col_".data.isPrefixOf h)

/-- The language-column mapping (source lines 171-178): column index →
normalized language tag, in header (insertion) order; `i` is the index of
the first header of the list within the whole header row. -/
def language_columns (key_column default_column : PStr) (excl : List PStr)
    (use_abbrev : Bool) : Nat → List PStr → List (Nat × PStr)
  | _, [] => []
  | i, h :: hs =>
    (if isLangHeader key_column default_column excl h then
        [(i, normalizeTag use_abbrev h)]
      else []) ++
      language_columns key_column default_column excl use_abbrev (i + 1) hs

/-- The keyword options of `convert_to_i18n_json` (source lines 104-116);
the exclusion-set default is `{'特殊说明', 'is_android', 'location'}`. -/
structure Options where
  start_row : Int
  end_row : Option Int
  key_column : PStr
  default_column : PStr
  default_lang : PStr
  exclude_columns : List PStr
  use_abbrev : Bool
  deriving DecidableEq, Repr

/-- Models `end_row if end_row else len(rows)` (source line 193): Python `0` and
`None` are both falsy, so both fall back to the number of rows present. -/
def actual_end (end_row : Option Int) (rows : List Row) : Int :=
  match end_row with
  | some e => if e ≠ 0 then e else (rows.length : Int)
  | none => (rows.length : Int)

/-- The context computed before the row loop of `convert_to_i18n_json`. -/
structure Ctx where
  shared : List PStr
  max_col : Int
  key_idx : Option Nat
  default_idx : Nat
  lcols : List (Nat × PStr)
  dlang : PStr
  start_row : Int
  aend : Int

/-- One iteration of the language-column loop (source lines 218-223):
insert the trimmed cell text for this language column when non-empty. -/
def langStep (cd : CellsDict) (tid : PStr) (a : Dict2) (p : Nat × PStr) :
    Dict2 :=
  let tv := pyStrip ((dget cd (p.1 : Int)).getD [])
  if tv ≠ [] then dinsert2 a p.2 tid tv else a

/-- Models `cells_dict.get(key_idx, '').strip() if key_idx is not None else ''`
(source line 202). -/
def keyValue (c : Ctx) (cd : CellsDict) : PStr :=
  match c.key_idx with
  | some i => pyStrip ((dget cd (i : Int)).getD [])
  | none => []

/-- Models `cells_dict.get(default_idx, '').strip()` (source line 203). -/
def defaultValue (c : Ctx) (cd : CellsDict) : PStr :=
  pyStrip ((dget cd (c.default_idx : Int)).getD [])

/-- Models `text_id = key_value if key_value else default_value`
(source line 210): the key-column value when non-empty, otherwise the
default value itself. -/
def textId (c : Ctx) (cd : CellsDict) : PStr :=
  if keyValue c cd ≠ [] then keyValue c cd else defaultValue c cd

/-- The body of the row loop for an in-range row (source lines 199-223). -/
def processDataRow (c : Ctx) (acc : Dict2) (cells : List Cell) :
    Except PyErr Dict2 :=
  match parse_row c.shared c.max_col cells with
  | .error e => .error e
  | .ok cd =>
    if defaultValue c cd = [] then .ok acc
    else
      .ok (c.lcols.foldl (langStep cd (textId c cd))
        (dinsert2 acc c.dlang (textId c cd) (defaultValue c cd)))

/-- One iteration of the row loop (source lines 195-223): rows outside the
inclusive `[start_row, aend]` range are skipped. -/
def processRow (c : Ctx) (acc : Dict2) (row : Row) : Except PyErr Dict2 :=
  if c.start_row ≤ row.r ∧ row.r ≤ c.aend then processDataRow c acc row.cells
  else .ok acc

/-- Embedding of `convert_to_i18n_json` (source lines 104-231) from the parsed sheet:
shared strings and row elements in document order.  The file-system layer
(zip opening, XML parsing, sheet-path resolution) is outside this model;
`Except.error` is a raised Python exception. -/
def convert (shared : List PStr) (rows : List Row) (o : Options) :
    Except PyErr Dict2 :=
  match rows with
  | [] => .error (.valueErr "Sheet is empty".data)
  | r0 :: _ =>
    match parse_row shared 100 r0.cells with
    | .error e => .error e
    | .ok header_cells =>
      let max_col := maxKeys header_cells
      let headers := buildHeaders header_cells
      let lcols := language_columns o.key_column o.default_column
        o.exclude_columns o.use_abbrev 0 headers
      let key_idx := headers.findIdx? (· == o.key_column)
      match headers.findIdx? (· == o.default_column) with
      | none =>
        .error (.valueErr ("Default column '".data ++ o.default_column ++
          "' not found in headers".data))
      | some default_idx =>
        foldE
          (processRow ⟨shared, max_col, key_idx, default_idx, lcols,
            o.default_lang, o.start_row, actual_end o.end_row rows⟩)
          [] rows

/-- One hexadecimal digit (lowercase, as Python `json` emits them). -/
def hexDigit (n : Nat) : Char :=
  if n < 10 then Char.ofNat (48 + n) else Char.ofNat (87 + n)

/-- Four-digit hexadecimal form used in `\uXXXX` escapes. -/
def hex4 (n : Nat) : PStr :=
  [hexDigit (n / 4096 % 16), hexDigit (n / 256 % 16),
   hexDigit (n / 16 % 16), hexDigit (n % 16)]

/-- JSON string escaping as `json.dump` with `ensure_ascii=False` performs
it: quote, backslash and control characters only; everything else (all
international characters included) is emitted literally. -/
def jsonEscapeChar (c : Char) : PStr :=
  if c = '"' then ['\\', '"']
  else if c = '\\' then ['\\', '\\']
  else if c = '\n' then ['\\', 'n']
  else if c = '\t' then ['\\', 't']
  else if c = '\r' then ['\\', 'r']
  else if c.toNat = 8 then ['\\', 'b']
  else if c.toNat = 12 then ['\\', 'f']
  else if c.toNat < 32 then ['\\', 'u'] ++ hex4 c.toNat
  else [c]

/-- A JSON string literal. -/
def jsonString (s : PStr) : PStr :=
  '"' :: s.foldr (fun c acc => jsonEscapeChar c ++ acc) ['"']

/-- Serialization of one language's inner mapping at indent level 2. -/
def dumpInner (m : Dict1) : PStr :=
  match m with
  | [] => "\x7b\x7d".data
  | _ =>
    "\x7b\n".data ++
      (List.intercalate ",\n".data
        (m.map (fun kv =>
          "    ".data ++ jsonString kv.1 ++ ": ".data ++ jsonString kv.2))) ++
      "\n  \x7d".data

/-- Models `json.dump(result, f, ensure_ascii=False, indent=2)` (source line 231):
the serialized bytes of the result mapping, keys in insertion order. -/
def dumps (res : Dict2) : PStr :=
  match res with
  | [] => "\x7b\x7d".data
  | _ =>
    "\x7b\n".data ++
      (List.intercalate ",\n".data
        (res.map (fun p =>
          "  ".data ++ jsonString p.1 ++ ": ".data ++ dumpInner p.2))) ++
      "\n\x7d".data

/-- The content of the output file: the serialization is reached only after
the whole extraction loop has completed without raising (source lines
229-231); on any raised exception no output file is produced. -/
def writtenOutput (shared : List PStr) (rows : List Row) (o : Options) :
    Option PStr :=
  match convert shared rows o with
  | .ok res => some (dumps res)
  | .error _ => none

/-! ## Dictionary lemmas -/

theorem dget_dinsert_self {α β : Type} [DecidableEq α] (d : List (α × β))
    (k : α) (v : β) : dget (dinsert d k v) k = some v := by
  induction d with
  | nil => simp [dget, dinsert]
  | cons p rest ih =>
    obtain ⟨k', v'⟩ := p
    by_cases h : k' = k
    · simp [dget, dinsert, h]
    · simp [dget, dinsert, h, ih]

theorem dget_dinsert_ne {α β : Type} [DecidableEq α] (d : List (α × β))
    (k k' : α) (v : β) (h : k' ≠ k) :
    dget (dinsert d k v) k' = dget d k' := by
  have hne : ¬(k = k') := fun hk => h hk.symm
  induction d with
  | nil => simp [dget, dinsert, hne]
  | cons p rest ih =>
    obtain ⟨k₀, v₀⟩ := p
    by_cases h0 : k₀ = k
    · subst h0
      simp only [dinsert, if_pos rfl]
      simp [dget, hne]
    · by_cases h1 : k₀ = k'
      · simp [dget, dinsert, h0, h1, h]
      · simp [dget, dinsert, h0, h1, ih]

theorem lookup2_nil (lang k : PStr) : lookup2 [] lang k = none := by
  simp [lookup2, dget]

theorem lookup2_dinsert2_self (d : Dict2) (lang k v : PStr) :
    lookup2 (dinsert2 d lang k v) lang k = some v := by
  simp [lookup2, dinsert2, dget_dinsert_self]

theorem lookup2_dinsert2_ne (d : Dict2) (lang k v lang' k' : PStr)
    (h : lang' ≠ lang ∨ k' ≠ k) :
    lookup2 (dinsert2 d lang k v) lang' k' = lookup2 d lang' k' := by
  rcases h with h | h
  · simp [lookup2, dinsert2, dget_dinsert_ne _ _ _ _ h]
  · by_cases hl : lang' = lang
    · subst hl
      simp only [lookup2, dinsert2, dget_dinsert_self, Option.bind_some,
        Option.some_bind]
      rw [dget_dinsert_ne _ _ _ _ h]
      cases hd : dget d lang' with
      | none => simp [dget]
      | some m => simp
    · simp [lookup2, dinsert2, dget_dinsert_ne _ _ _ _ hl]

theorem lookup2_dinsert2_isSome (d : Dict2) (lang k v lang' k' : PStr)
    (h : (lookup2 d lang' k').isSome) :
    (lookup2 (dinsert2 d lang k v) lang' k').isSome := by
  by_cases hl : lang' = lang
  · by_cases hk : k' = k
    · subst hl; subst hk; simp [lookup2_dinsert2_self]
    · rw [lookup2_dinsert2_ne _ _ _ _ _ _ (Or.inr hk)]; exact h
  · rw [lookup2_dinsert2_ne _ _ _ _ _ _ (Or.inl hl)]; exact h

theorem lookup2_dinsert2_cases (d : Dict2) (lang k v lang' k' w : PStr)
    (h : lookup2 (dinsert2 d lang k v) lang' k' = some w) :
    w = v ∨ lookup2 d lang' k' = some w := by
  by_cases hl : lang' = lang
  · by_cases hk : k' = k
    · subst hl; subst hk
      rw [lookup2_dinsert2_self] at h
      exact Or.inl (Option.some.inj h).symm
    · rw [lookup2_dinsert2_ne _ _ _ _ _ _ (Or.inr hk)] at h
      exact Or.inr h
  · rw [lookup2_dinsert2_ne _ _ _ _ _ _ (Or.inl hl)] at h
    exact Or.inr h

/-! ## Column-letter arithmetic (claim C1) -/

theorem pyUpperChar_of_upper (c : Char) (h : c.toNat ≤ 90) :
    pyUpperChar c = c := by
  unfold pyUpperChar
  rw [if_neg]
  omega

theorem specColumnValue_append (s : PStr) (c : Char) :
    specColumnValue (s ++ [c]) = specColumnValue s * 26 + (c.toNat - 64) := by
  simp [specColumnValue, List.foldl_append]

theorem get_column_index_foldl (s : PStr)
    (h : ∀ c ∈ s, 65 ≤ c.toNat ∧ c.toNat ≤ 90) (a : Nat) :
    (s.map pyUpperChar).foldl
        (fun index ch => index * 26 + ((ch.toNat : Int) - 65 + 1)) (a : Int) =
      ((s.foldl (fun x c => x * 26 + (c.toNat - 64)) a : Nat) : Int) := by
  induction s generalizing a with
  | nil => simp
  | cons c rest ih =>
    have hc := h c (List.mem_cons_self c rest)
    have hrest : ∀ c' ∈ rest, 65 ≤ c'.toNat ∧ c'.toNat ≤ 90 :=
      fun c' hm => h c' (List.mem_cons_of_mem c hm)
    simp only [List.map_cons, List.foldl_cons, pyUpperChar_of_upper c hc.2]
    have hacc : (a : Int) * 26 + ((c.toNat : Int) - 65 + 1) =
        ((a * 26 + (c.toNat - 64) : Nat) : Int) := by
      push_cast
      omega
    rw [hacc, ih hrest]

theorem get_column_index_eq_spec (s : PStr)
    (h : ∀ c ∈ s, 65 ≤ c.toNat ∧ c.toNat ≤ 90) :
    get_column_index s = (specColumnValue s : Int) - 1 := by
  unfold get_column_index specColumnValue
  rw [show (0 : Int) = ((0 : Nat) : Int) from rfl, get_column_index_foldl s h 0]

theorem bijToLetters_roundtrip (s : PStr)
    (h : ∀ c ∈ s, 65 ≤ c.toNat ∧ c.toNat ≤ 90) :
    bijToLetters (specColumnValue s) = s := by
  induction s using List.reverseRecOn with
  | nil => simp [specColumnValue, bijToLetters]
  | append_singleton s c ih =>
    have hc := h c (by simp)
    have hs : ∀ c' ∈ s, 65 ≤ c'.toNat ∧ c'.toNat ≤ 90 :=
      fun c' hm => h c' (by simp [hm])
    rw [specColumnValue_append]
    have hne : specColumnValue s * 26 + (c.toNat - 64) ≠ 0 := by omega
    rw [bijToLetters, dif_neg hne]
    have hdiv : (specColumnValue s * 26 + (c.toNat - 64) - 1) / 26 =
        specColumnValue s := by omega
    have hmod : 65 + (specColumnValue s * 26 + (c.toNat - 64) - 1) % 26 =
        c.toNat := by omega
    rw [hdiv, hmod, ih hs, Char.ofNat_toNat]

/-- C1: `get_column_index` computes the bijective base-26 value of a
column-letter string (digits A=1 … Z=26, no zero digit) minus 1, and the
inverse bijective-numeral mapping applied to the result recovers the
original letters; in particular "A" ↦ 0, "Z" ↦ 25, "AA" ↦ 26, "AB" ↦ 27. -/
theorem get_column_index_bijective :
    (∀ s : PStr, (∀ c ∈ s, 65 ≤ c.toNat ∧ c.toNat ≤ 90) →
        get_column_index s = (specColumnValue s : Int) - 1 ∧
        bijToLetters ((get_column_index s + 1).toNat) = s) ∧
      get_column_index "A".data = 0 ∧ get_column_index "Z".data = 25 ∧
      get_column_index "AA".data = 26 ∧ get_column_index "AB".data = 27 := by
  refine ⟨fun s h => ⟨get_column_index_eq_spec s h, ?_⟩, by decide, by decide,
    by decide, by decide⟩
  rw [get_column_index_eq_spec s h]
  have : ((specColumnValue s : Int) - 1 + 1).toNat = specColumnValue s := by
    omega
  rw [this]
  exact bijToLetters_roundtrip s h

/-- Witness for C1 at the concrete column reference "AB". -/
theorem get_column_index_bijective_witness :
    (∀ c ∈ "AB".data, 65 ≤ c.toNat ∧ c.toNat ≤ 90) ∧
      bijToLetters ((get_column_index "AB".data + 1).toNat) = "AB".data :=
  ⟨by decide, (get_column_index_bijective.1 "AB".data (by decide)).2⟩

/-! ## Row-range selection (claim C2) -/

theorem processRow_out_of_range (c : Ctx) (acc : Dict2) (row : Row)
    (h : ¬(c.start_row ≤ row.r ∧ row.r ≤ c.aend)) :
    processRow c acc row = .ok acc := by
  unfold processRow
  rw [if_neg h]

/-- C2 (amended): the extraction loop ignores exactly the rows whose
1-based row number lies outside the inclusive range `[start_row, aend]`
(dropping them from the row list leaves the result unchanged), and when
`end_row` is not supplied the effective end bound `aend` is the COUNT of
row elements present in the sheet — not the row number of the last row
present, which differs on sheets with sparse row numbering. -/
theorem row_range_filter :
    (∀ (c : Ctx) (acc : Dict2) (rows : List Row),
        foldE (processRow c) acc rows =
          foldE (processRow c) acc
            (rows.filter fun row =>
              decide (c.start_row ≤ row.r ∧ row.r ≤ c.aend))) ∧
      ∀ rows : List Row, actual_end none rows = (rows.length : Int) := by
  constructor
  · intro c acc rows
    induction rows generalizing acc with
    | nil => rfl
    | cons r rs ih =>
      by_cases hr : c.start_row ≤ r.r ∧ r.r ≤ c.aend
      · rw [List.filter_cons_of_pos (by simpa using hr)]
        simp only [foldE]
        cases hpr : processRow c acc r with
        | ok b => exact ih b
        | error e => rfl
      · rw [List.filter_cons_of_neg (by simpa using hr)]
        simp only [foldE, processRow_out_of_range c acc r hr]
        exact ih acc
  · intro rows
    rfl

/-- C2 counterexample: a sheet whose two row elements carry the row
numbers 1 (the header) and 5 (a data row with non-empty default "X"),
converted with start_row = 2 and no end_row.  The claim's effective end
bound would be 5 (the row number of the last row present), putting row 5
inside the inclusive range [2, 5]; the code instead bounds the loop by
`len(rows)` = 2 and produces an empty result mapping. -/
theorem row_range_default_end_counterexample :
    convert []
        [⟨1, [⟨"A1".data, none, some "default".data⟩]⟩,
         ⟨5, [⟨"A5".data, none, some "X".data⟩]⟩]
        ⟨2, none, "key".data, "default".data, "en".data, [], true⟩ =
      .ok [] ∧
      ((2 : Int) ≤ 5 ∧ (5 : Int) ≤ 5) ∧
      pyStrip "X".data ≠ [] := by
  refine ⟨by rfl, by decide, by decide⟩

/-! ## Invariants of the extraction loop (claims C3 and C7) -/

theorem foldE_inv {α β : Type} {P : β → Prop} (f : β → α → Except PyErr β)
    (hstep : ∀ b a b', P b → f b a = .ok b' → P b') :
    ∀ (l : List α) (b b' : β), P b → foldE f b l = .ok b' → P b' := by
  intro l
  induction l with
  | nil =>
    intro b b' hb h
    unfold foldE at h
    injection h with h'
    exact h' ▸ hb
  | cons a rest ih =>
    intro b b' hb h
    unfold foldE at h
    cases hfa : f b a with
    | ok b1 =>
      rw [hfa] at h
      exact ih b1 b' (hstep b a b1 hb hfa) h
    | error e =>
      rw [hfa] at h
      cases h

/-- Any `lookup2` query not hit by an iteration of the language-column
loop is left unchanged by the whole loop. -/
theorem langFoldl_lookup_ne (cd : CellsDict) (tid : PStr)
    (lcols : List (Nat × PStr)) (l k : PStr)
    (h : ∀ p ∈ lcols, p.2 ≠ l ∨ k ≠ tid) :
    ∀ a : Dict2, lookup2 (lcols.foldl (langStep cd tid) a) l k =
      lookup2 a l k := by
  induction lcols with
  | nil => intro a; rfl
  | cons p rest ih =>
    intro a
    have hrest : ∀ q ∈ rest, q.2 ≠ l ∨ k ≠ tid :=
      fun q hq => h q (List.mem_cons_of_mem p hq)
    rw [List.foldl_cons, ih hrest]
    rw [show langStep cd tid a p =
      if pyStrip ((dget cd (p.1 : Int)).getD []) ≠ [] then
        dinsert2 a p.2 tid (pyStrip ((dget cd (p.1 : Int)).getD []))
      else a from rfl]
    by_cases htv : pyStrip ((dget cd (p.1 : Int)).getD []) ≠ []
    · rw [if_pos htv]
      rcases h p (List.mem_cons_self p rest) with hp | hp
      · exact lookup2_dinsert2_ne _ _ _ _ _ _ (Or.inl fun he => hp he.symm)
      · exact lookup2_dinsert2_ne _ _ _ _ _ _ (Or.inr hp)
    · rw [if_neg htv]

/-- One language-column iteration preserves both halves of the
default-language-superset invariant. -/
theorem langStep_pres_default (cd : CellsDict) (tid dlang : PStr)
    (a : Dict2) (p : Nat × PStr)
    (hP : ∀ l k, (lookup2 a l k).isSome → (lookup2 a dlang k).isSome)
    (htid : (lookup2 a dlang tid).isSome) :
    (∀ l k, (lookup2 (langStep cd tid a p) l k).isSome →
        (lookup2 (langStep cd tid a p) dlang k).isSome) ∧
      (lookup2 (langStep cd tid a p) dlang tid).isSome := by
  rw [show langStep cd tid a p =
    if pyStrip ((dget cd (p.1 : Int)).getD []) ≠ [] then
      dinsert2 a p.2 tid (pyStrip ((dget cd (p.1 : Int)).getD []))
    else a from rfl]
  by_cases htv : pyStrip ((dget cd (p.1 : Int)).getD []) ≠ []
  · rw [if_pos htv]
    refine ⟨?_, lookup2_dinsert2_isSome _ _ _ _ _ _ htid⟩
    intro l k hs
    by_cases hk : k = tid
    · subst hk
      exact lookup2_dinsert2_isSome _ _ _ _ _ _ htid
    · rw [lookup2_dinsert2_ne _ _ _ _ _ _ (Or.inr hk)] at hs
      exact lookup2_dinsert2_isSome _ _ _ _ _ _ (hP l k hs)
  · rw [if_neg htv]
    exact ⟨hP, htid⟩

/-- The whole language-column loop preserves both halves of the
default-language-superset invariant. -/
theorem langFoldl_pres_default (cd : CellsDict) (tid dlang : PStr)
    (lcols : List (Nat × PStr)) :
    ∀ a : Dict2,
      (∀ l k, (lookup2 a l k).isSome → (lookup2 a dlang k).isSome) →
      (lookup2 a dlang tid).isSome →
      (∀ l k, (lookup2 (lcols.foldl (langStep cd tid) a) l k).isSome →
          (lookup2 (lcols.foldl (langStep cd tid) a) dlang k).isSome) ∧
        (lookup2 (lcols.foldl (langStep cd tid) a) dlang tid).isSome := by
  induction lcols with
  | nil => intro a hP htid; exact ⟨hP, htid⟩
  | cons p rest ih =>
    intro a hP htid
    rw [List.foldl_cons]
    obtain ⟨h1, h2⟩ := langStep_pres_default cd tid dlang a p hP htid
    exact ih (langStep cd tid a p) h1 h2

/-- Inserting the default-language entry of a row establishes presence of
the row key under the default language while preserving the invariant. -/
theorem dinsert2_pres_default (acc : Dict2) (dlang tid dv : PStr)
    (hP : ∀ l k, (lookup2 acc l k).isSome → (lookup2 acc dlang k).isSome) :
    ∀ l k, (lookup2 (dinsert2 acc dlang tid dv) l k).isSome →
      (lookup2 (dinsert2 acc dlang tid dv) dlang k).isSome := by
  intro l k hs
  by_cases hk : k = tid
  · subst hk
    rw [lookup2_dinsert2_self]
    rfl
  · rw [lookup2_dinsert2_ne _ _ _ _ _ _ (Or.inr hk)] at hs
    exact lookup2_dinsert2_isSome _ _ _ _ _ _ (hP l k hs)

theorem processDataRow_pres_default (c : Ctx) (acc : Dict2)
    (cells : List Cell) (acc' : Dict2)
    (hP : ∀ l k, (lookup2 acc l k).isSome → (lookup2 acc c.dlang k).isSome)
    (h : processDataRow c acc cells = .ok acc') :
    ∀ l k, (lookup2 acc' l k).isSome → (lookup2 acc' c.dlang k).isSome := by
  unfold processDataRow at h
  cases hp : parse_row c.shared c.max_col cells with
  | error e => rw [hp] at h; cases h
  | ok cd =>
    rw [hp] at h
    dsimp only at h
    by_cases hdv : defaultValue c cd = []
    · rw [if_pos hdv] at h
      injection h with h'
      subst h'
      exact hP
    · rw [if_neg hdv] at h
      injection h with h'
      subst h'
      apply (langFoldl_pres_default cd _ c.dlang c.lcols _
        (dinsert2_pres_default acc c.dlang _ _ hP) (by
          rw [lookup2_dinsert2_self]; rfl)).1

theorem processRow_pres_default (c : Ctx) (acc : Dict2) (row : Row)
    (acc' : Dict2)
    (hP : ∀ l k, (lookup2 acc l k).isSome → (lookup2 acc c.dlang k).isSome)
    (h : processRow c acc row = .ok acc') :
    ∀ l k, (lookup2 acc' l k).isSome → (lookup2 acc' c.dlang k).isSome := by
  unfold processRow at h
  split at h
  · exact processDataRow_pres_default c acc row.cells acc' hP h
  · injection h with h'
    subst h'
    exact hP

/-- A successful `convert` run is the extraction loop started from the
empty result, with the context built from the parsed header row. -/
theorem convert_ok_foldE (shared : List PStr) (rows : List Row) (o : Options)
    (res : Dict2) (h : convert shared rows o = .ok res) :
    ∃ c : Ctx, c.dlang = o.default_lang ∧
      foldE (processRow c) [] rows = .ok res := by
  unfold convert at h
  cases rows with
  | nil => cases h
  | cons r0 rest =>
    dsimp only at h
    cases hp : parse_row shared 100 r0.cells with
    | error e => rw [hp] at h; cases h
    | ok hc =>
      rw [hp] at h
      dsimp only at h
      cases hd : (buildHeaders hc).findIdx? (· == o.default_column) with
      | none => rw [hd] at h; cases h
      | some di =>
        rw [hd] at h
        exact ⟨_, rfl, h⟩

/-- C3: in the result of `convert_to_i18n_json`, every key that appears in
any language's mapping also appears in the default language's mapping. -/
theorem default_language_superset (shared : List PStr) (rows : List Row)
    (o : Options) (res : Dict2) (lang : PStr) (m : Dict1) (k : PStr)
    (h : convert shared rows o = .ok res) (hm : dget res lang = some m)
    (hk : (dget m k).isSome) :
    ∃ dm, dget res o.default_lang = some dm ∧ (dget dm k).isSome := by
  obtain ⟨c, hdl, hfold⟩ := convert_ok_foldE shared rows o res h
  have hinv : ∀ l k', (lookup2 res l k').isSome →
      (lookup2 res c.dlang k').isSome := by
    refine @foldE_inv Row Dict2
      (fun d => ∀ l k', (lookup2 d l k').isSome → (lookup2 d c.dlang k').isSome)
      (processRow c) ?_ rows [] res ?_ hfold
    · intro b a b' hb hstep
      exact processRow_pres_default c b a b' hb hstep
    · intro l k' hs
      rw [lookup2_nil] at hs
      cases hs
  have hsrc : (lookup2 res lang k).isSome := by
    rw [lookup2, hm, Option.some_bind]
    exact hk
  have hres := hinv lang k hsrc
  rw [hdl] at hres
  rw [lookup2] at hres
  cases hdm : dget res o.default_lang with
  | none => rw [hdm] at hres; cases hres
  | some dm =>
    rw [hdm, Option.some_bind] at hres
    exact ⟨dm, rfl, hres⟩

/-- Witness for C3: a concrete workbook with one data row carrying a key
column value "k1", default "hello" and a French translation; the key of
the "fr" mapping is present in the "en" (default) mapping. -/
theorem default_language_superset_witness :
    ∃ dm, dget [("en".data, [("k1".data, "hello".data)]),
        ("fr".data, [("k1".data, "bonjour".data)])] "en".data = some dm ∧
      (dget dm "k1".data).isSome :=
  default_language_superset []
    [⟨1, [⟨"A1".data, none, some "key".data⟩,
          ⟨"B1".data, none, some "default".data⟩,
          ⟨"C1".data, none, some "fr".data⟩]⟩,
     ⟨2, [⟨"A2".data, none, some "k1".data⟩,
          ⟨"B2".data, none, some "hello".data⟩,
          ⟨"C2".data, none, some "bonjour".data⟩]⟩]
    ⟨2, none, "key".data, "default".data, "en".data, [], true⟩
    [("en".data, [("k1".data, "hello".data)]),
     ("fr".data, [("k1".data, "bonjour".data)])]
    "fr".data [("k1".data, "bonjour".data)] "k1".data
    (by rfl) (by rfl) (by rfl)

/-- The language-column loop stores only non-empty values. -/
theorem langFoldl_pres_nonempty (cd : CellsDict) (tid : PStr)
    (lcols : List (Nat × PStr)) :
    ∀ a : Dict2,
      (∀ l k v, lookup2 a l k = some v → v ≠ []) →
      ∀ l k v, lookup2 (lcols.foldl (langStep cd tid) a) l k = some v →
        v ≠ [] := by
  induction lcols with
  | nil => intro a hP; exact hP
  | cons p rest ih =>
    intro a hP
    rw [List.foldl_cons]
    apply ih
    rw [show langStep cd tid a p =
      if pyStrip ((dget cd (p.1 : Int)).getD []) ≠ [] then
        dinsert2 a p.2 tid (pyStrip ((dget cd (p.1 : Int)).getD []))
      else a from rfl]
    by_cases htv : pyStrip ((dget cd (p.1 : Int)).getD []) ≠ []
    · rw [if_pos htv]
      intro l k v hv
      rcases lookup2_dinsert2_cases _ _ _ _ _ _ _ hv with hw | hold
      · exact hw ▸ htv
      · exact hP l k v hold
    · rw [if_neg htv]
      exact hP

theorem processDataRow_pres_nonempty (c : Ctx) (acc : Dict2)
    (cells : List Cell) (acc' : Dict2)
    (hP : ∀ l k v, lookup2 acc l k = some v → v ≠ [])
    (h : processDataRow c acc cells = .ok acc') :
    ∀ l k v, lookup2 acc' l k = some v → v ≠ [] := by
  unfold processDataRow at h
  cases hp : parse_row c.shared c.max_col cells with
  | error e => rw [hp] at h; cases h
  | ok cd =>
    rw [hp] at h
    dsimp only at h
    by_cases hdv : defaultValue c cd = []
    · rw [if_pos hdv] at h
      injection h with h'
      subst h'
      exact hP
    · rw [if_neg hdv] at h
      injection h with h'
      subst h'
      apply langFoldl_pres_nonempty cd _ c.lcols _
      intro l k v hv
      rcases lookup2_dinsert2_cases _ _ _ _ _ _ _ hv with hw | hold
      · exact hw ▸ hdv
      · exact hP l k v hold

theorem processRow_pres_nonempty (c : Ctx) (acc : Dict2) (row : Row)
    (acc' : Dict2)
    (hP : ∀ l k v, lookup2 acc l k = some v → v ≠ [])
    (h : processRow c acc row = .ok acc') :
    ∀ l k v, lookup2 acc' l k = some v → v ≠ [] := by
  unfold processRow at h
  split at h
  · exact processDataRow_pres_nonempty c acc row.cells acc' hP h
  · injection h with h'
    subst h'
    exact hP

/-- C7: the empty string is never stored as a value in the result mapping:
a row with empty trimmed default contributes nothing, and an empty (or
absent, or whitespace-only) language cell suppresses that language's
entry instead of storing an empty string. -/
theorem no_empty_values (shared : List PStr) (rows : List Row) (o : Options)
    (res : Dict2) (lang k v : PStr) (h : convert shared rows o = .ok res)
    (hv : lookup2 res lang k = some v) : v ≠ [] := by
  obtain ⟨c, _, hfold⟩ := convert_ok_foldE shared rows o res h
  refine @foldE_inv Row Dict2
      (fun d => ∀ l k' v', lookup2 d l k' = some v' → v' ≠ [])
      (processRow c) ?_ rows [] res ?_ hfold lang k v hv
  · intro b a b' hb hstep
    exact processRow_pres_nonempty c b a b' hb hstep
  · intro l k' v' hv'
    rw [lookup2_nil] at hv'
    cases hv'

/-- Witness for C7 at a concrete workbook: the stored French value
"bonjour" is non-empty. -/
theorem no_empty_values_witness : "bonjour".data ≠ [] :=
  no_empty_values []
    [⟨1, [⟨"A1".data, none, some "key".data⟩,
          ⟨"B1".data, none, some "default".data⟩,
          ⟨"C1".data, none, some "fr".data⟩]⟩,
     ⟨2, [⟨"A2".data, none, some "k1".data⟩,
          ⟨"B2".data, none, some "hello".data⟩,
          ⟨"C2".data, none, some "bonjour".data⟩]⟩]
    ⟨2, none, "key".data, "default".data, "en".data, [], true⟩
    [("en".data, [("k1".data, "hello".data)]),
     ("fr".data, [("k1".data, "bonjour".data)])]
    "fr".data "k1".data "bonjour".data (by rfl) (by rfl)

/-! ## Shared-string resolution (claim C4) -/

/-- C4: for a cell whose type attribute is `'s'`, `parse_row` resolves the
cell's integer index against the shared-string sequence: a zero-based
index `i` within range yields entry `i` of the sequence (the `(i+1)`-th
entry), and an out-of-range index silently omits the cell from the row
mapping instead of raising. -/
theorem shared_string_resolution (shared : List PStr) (max_col : Int)
    (d : CellsDict) (cell : Cell) (txt : PStr) (i : Nat)
    (ht : cell.t = some ['s']) (hv : cell.v = some txt) (hne : txt ≠ [])
    (hparse : pyInt txt = some ((i : Nat) : Int))
    (hcol : ¬get_column_index (cell.r.filter pyIsAlpha) > max_col) :
    (∀ h : i < shared.length,
        parseCellStep shared max_col d cell =
          .ok (dinsert d (get_column_index (cell.r.filter pyIsAlpha))
            (shared.get ⟨i, h⟩))) ∧
      (shared.length ≤ i → parseCellStep shared max_col d cell = .ok d) := by
  unfold parseCellStep
  dsimp only
  rw [if_neg hcol, hv]
  dsimp only
  rw [if_neg hne, ht, if_pos rfl, hparse]
  dsimp only
  constructor
  · intro h
    rw [if_pos (by exact_mod_cast h)]
    unfold pyIndex
    rw [if_pos (by exact_mod_cast Nat.zero_le i)]
    rw [show ((i : Nat) : Int).toNat = i from rfl, List.get?_eq_get h]
  · intro h
    rw [if_neg (by
      intro hlt
      exact absurd (by exact_mod_cast hlt) (Nat.not_lt.mpr h))]

/-- Witness for C4: index 2 into a 5-entry shared-string sequence yields
that sequence's 3rd entry ("two") as the cell's text. -/
theorem shared_string_resolution_witness :
    parseCellStep
        ["zero".data, "one".data, "two".data, "three".data, "four".data]
        0 [] ⟨"A2".data, some ['s'], some "2".data⟩ =
      .ok (dinsert [] (get_column_index ("A2".data.filter pyIsAlpha))
        (["zero".data, "one".data, "two".data, "three".data,
          "four".data].get ⟨2, by decide⟩)) :=
  (shared_string_resolution
      ["zero".data, "one".data, "two".data, "three".data, "four".data]
      0 [] ⟨"A2".data, some ['s'], some "2".data⟩ "2".data 2
      (by rfl) (by rfl) (by decide) (by decide) (by decide)).1 (by decide)

/-! ## Missing default column (claim C5) -/

theorem findIdx?_beq_eq_none_from (a : PStr) :
    ∀ (l : List PStr) (n : Nat), a ∉ l →
      List.findIdx? (· == a) l n = none := by
  intro l
  induction l with
  | nil => intro n _; rfl
  | cons x xs ih =>
    intro n h
    rw [List.findIdx?_cons]
    rw [if_neg (by
      simp only [beq_iff_eq]
      exact fun hx => h (hx ▸ List.mem_cons_self x xs))]
    exact ih (n + 1) fun hm => h (List.mem_cons_of_mem x hm)

theorem findIdx?_beq_eq_none (l : List PStr) (a : PStr) (h : a ∉ l) :
    l.findIdx? (· == a) = none :=
  findIdx?_beq_eq_none_from a l 0 h

/-- C5: when the parsed header row lacks the configured default-column
name, `convert_to_i18n_json` raises the Validation error
`Default column '<name>' not found in headers`, and no output file is
written; the output is produced only from a successful run. -/
theorem missing_default_column (shared : List PStr) (rows : List Row)
    (o : Options) (r0 : Row) (rest : List Row) (hc : CellsDict)
    (hrows : rows = r0 :: rest)
    (hparse : parse_row shared 100 r0.cells = .ok hc)
    (hmiss : o.default_column ∉ buildHeaders hc) :
    convert shared rows o =
        .error (.valueErr ("Default column '".data ++ o.default_column ++
          "' not found in headers".data)) ∧
      writtenOutput shared rows o = none := by
  subst hrows
  have hconv : convert shared (r0 :: rest) o =
      .error (.valueErr ("Default column '".data ++ o.default_column ++
        "' not found in headers".data)) := by
    unfold convert
    dsimp only
    rw [hparse]
    dsimp only
    rw [findIdx?_beq_eq_none _ _ hmiss]
  refine ⟨hconv, ?_⟩
  unfold writtenOutput
  rw [hconv]

/-- Witness for C5: a workbook whose header row is ["key", "fr"], with the
default column name "default" absent. -/
theorem missing_default_column_witness :
    convert []
        [⟨1, [⟨"A1".data, none, some "key".data⟩,
              ⟨"B1".data, none, some "fr".data⟩]⟩]
        ⟨2, none, "key".data, "default".data, "en".data, [], true⟩ =
        .error (.valueErr ("Default column '".data ++ "default".data ++
          "' not found in headers".data)) ∧
      writtenOutput []
        [⟨1, [⟨"A1".data, none, some "key".data⟩,
              ⟨"B1".data, none, some "fr".data⟩]⟩]
        ⟨2, none, "key".data, "default".data, "en".data, [], true⟩ = none :=
  missing_default_column []
    [⟨1, [⟨"A1".data, none, some "key".data⟩,
          ⟨"B1".data, none, some "fr".data⟩]⟩]
    ⟨2, none, "key".data, "default".data, "en".data, [], true⟩
    ⟨1, [⟨"A1".data, none, some "key".data⟩,
         ⟨"B1".data, none, some "fr".data⟩]⟩ [] [(0, "key".data), (1, "fr".data)]
    (by rfl) (by rfl) (by decide)

/-! ## Language-column classification (claims C6 and C10) -/

/-- Membership in the language-column mapping: every entry comes from a
header at the matching position that passed the classification test, with
its tag normalized. -/
theorem language_columns_mem (key dft : PStr) (excl : List PStr) (ab : Bool) :
    ∀ (hs : List PStr) (n i : Nat) (tag : PStr),
      (i, tag) ∈ language_columns key dft excl ab n hs →
      ∃ h, n ≤ i ∧ hs.get? (i - n) = some h ∧
        isLangHeader key dft excl h = true ∧ tag = normalizeTag ab h := by
  intro hs
  induction hs with
  | nil =>
    intro n i tag hmem
    cases hmem
  | cons x xs ih =>
    intro n i tag hmem
    unfold language_columns at hmem
    by_cases hx : isLangHeader key dft excl x
    · rw [if_pos hx] at hmem
      rcases List.mem_append.mp hmem with h1 | h2
      · have heq : (i, tag) = (n, normalizeTag ab x) :=
          List.mem_singleton.mp h1
        injection heq with hi htag
        subst hi
        subst htag
        exact ⟨x, Nat.le_refl _, by simp, hx, rfl⟩
      · obtain ⟨h, hn, hg, hc, ht⟩ := ih (n + 1) i tag h2
        refine ⟨h, by omega, ?_, hc, ht⟩
        have hm : i - n = (i - (n + 1)) + 1 := by omega
        rw [hm, List.get?_cons_succ]
        exact hg
    · rw [if_neg hx, List.nil_append] at hmem
      obtain ⟨h, hn, hg, hc, ht⟩ := ih (n + 1) i tag hmem
      refine ⟨h, by omega, ?_, hc, ht⟩
      have hm : i - n = (i - (n + 1)) + 1 := by omega
      rw [hm, List.get?_cons_succ]
      exact hg

/-- C6: with abbreviation enabled, a language column's tag is its header
with every occurrence of `_r` replaced by `-` and every remaining `_`
replaced by `-`; with abbreviation disabled, the header itself; in
particular `zh_rCN` normalizes to `zh-CN` when enabled and stays `zh_rCN`
when disabled. -/
theorem language_tag_normalization :
    (∀ (key dft : PStr) (excl : List PStr) (headers : List PStr) (i : Nat)
        (tag h : PStr), headers.get? i = some h →
        (((i, tag) ∈ language_columns key dft excl true 0 headers →
            tag = pyReplace (pyReplace h "_r".data "-".data)
              "_".data "-".data) ∧
          ((i, tag) ∈ language_columns key dft excl false 0 headers →
            tag = h))) ∧
      normalizeTag true "zh_rCN".data = "zh-CN".data ∧
      normalizeTag false "zh_rCN".data = "zh_rCN".data := by
  refine ⟨?_, by decide, by rfl⟩
  intro key dft excl headers i tag h hget
  constructor
  · intro hmem
    obtain ⟨h', _, hg, _, ht⟩ :=
      language_columns_mem key dft excl true headers 0 i tag hmem
    rw [Nat.sub_zero, hget] at hg
    injection hg with hg'
    subst hg'
    exact ht
  · intro hmem
    obtain ⟨h', _, hg, _, ht⟩ :=
      language_columns_mem key dft excl false headers 0 i tag hmem
    rw [Nat.sub_zero, hget] at hg
    injection hg with hg'
    subst hg'
    exact ht

/-- Witness for C6: the header `zh_rCN` of the concrete header row
["key", "default", "zh_rCN"] is a language column and its abbreviated tag
is the replace-composition `zh-CN`. -/
theorem language_tag_normalization_witness :
    "zh-CN".data =
      pyReplace (pyReplace "zh_rCN".data "_r".data "-".data)
        "_".data "-".data :=
  (language_tag_normalization.1 "key".data "default".data []
      ["key".data, "default".data, "zh_rCN".data] 2 "zh-CN".data
      "zh_rCN".data (by rfl)).1 (by decide)

/-- C10: every header carrying the `col_` prefix — synthetic gap/empty
placeholders and genuine headers literally named that way alike — is
excluded from the language-column set, and a language absent from the
language-column tags (and distinct from the default language) never
receives entries; placeholder detection is purely by name prefix. -/
theorem col_prefix_excluded :
    (∀ (key dft : PStr) (excl : List PStr) (headers : List PStr) (ab : Bool)
        (i : Nat) (tag h : PStr), headers.get? i = some h →
        (("col_".data.isPrefixOf h = true →
            (i, tag) ∉ language_columns key dft excl ab 0 headers) ∧
          ((i, tag) ∈ language_columns key dft excl ab 0 headers →
            "col_".data.isPrefixOf h = false))) ∧
      ∀ (c : Ctx) (acc : Dict2) (cells : List Cell) (res : Dict2)
        (l k : PStr), processDataRow c acc cells = .ok res → l ≠ c.dlang →
        l ∉ c.lcols.map Prod.snd → lookup2 res l k = lookup2 acc l k := by
  constructor
  · intro key dft excl headers ab i tag h hget
    have hdir : (i, tag) ∈ language_columns key dft excl ab 0 headers →
        "col_".data.isPrefixOf h = false := by
      intro hmem
      obtain ⟨h', _, hg, hc, _⟩ :=
        language_columns_mem key dft excl ab headers 0 i tag hmem
      rw [Nat.sub_zero, hget] at hg
      injection hg with hg'
      subst hg'
      unfold isLangHeader at hc
      simp only [Bool.and_eq_true, Bool.not_eq_true'] at hc
      exact hc.2
    refine ⟨fun hpre hmem => ?_, hdir⟩
    rw [hdir hmem] at hpre
    cases hpre
  · intro c acc cells res l k h hld hlt
    unfold processDataRow at h
    cases hp : parse_row c.shared c.max_col cells with
    | error e => rw [hp] at h; cases h
    | ok cd =>
      rw [hp] at h
      dsimp only at h
      by_cases hdv : defaultValue c cd = []
      · rw [if_pos hdv] at h
        injection h with h'
        subst h'
        rfl
      · rw [if_neg hdv] at h
        injection h with h'
        subst h'
        rw [langFoldl_lookup_ne _ _ _ _ _ (fun p hp' =>
          Or.inl (fun hpl => hlt (by
            rw [← hpl]
            exact List.mem_map_of_mem Prod.snd hp')))]
        exact lookup2_dinsert2_ne _ _ _ _ _ _ (Or.inl hld)

/-- Witness for C10: in the header row ["key", "default", "col_x", "fr"]
the genuine header "col_x" (position 2) is not a language column. -/
theorem col_prefix_excluded_witness :
    (2, "col-x".data) ∉ language_columns "key".data "default".data [] true 0
      ["key".data, "default".data, "col_x".data, "fr".data] :=
  (col_prefix_excluded.1 "key".data "default".data []
      ["key".data, "default".data, "col_x".data, "fr".data] true 2
      "col-x".data "col_x".data (by rfl)).1 (by decide)

/-! ## Self-keying fallback (claim C8) -/

/-- C8: for an extracted row the effective key is the trimmed key-column
value when present and non-empty, otherwise the trimmed default value
itself; the row's default-language entry is stored under that key with the
trimmed default value, and the row touches no other key. -/
theorem self_keying_fallback (c : Ctx) (acc : Dict2) (cells : List Cell)
    (cd : CellsDict) (hp : parse_row c.shared c.max_col cells = .ok cd)
    (hdv : defaultValue c cd ≠ [])
    (hnd : ∀ p ∈ c.lcols, p.2 ≠ c.dlang) :
    textId c cd =
        (if keyValue c cd ≠ [] then keyValue c cd else defaultValue c cd) ∧
      ∃ acc', processDataRow c acc cells = .ok acc' ∧
        lookup2 acc' c.dlang (textId c cd) = some (defaultValue c cd) ∧
        ∀ l k, lookup2 acc' l k ≠ lookup2 acc l k → k = textId c cd := by
  refine ⟨rfl, ?_⟩
  have hpd : processDataRow c acc cells =
      .ok (c.lcols.foldl (langStep cd (textId c cd))
        (dinsert2 acc c.dlang (textId c cd) (defaultValue c cd))) := by
    unfold processDataRow
    rw [hp]
    dsimp only
    rw [if_neg hdv]
  refine ⟨_, hpd, ?_, ?_⟩
  · rw [langFoldl_lookup_ne _ _ _ _ _ (fun p hp' => Or.inl (hnd p hp'))]
    exact lookup2_dinsert2_self _ _ _ _
  · intro l k hne
    by_contra hk
    rw [langFoldl_lookup_ne _ _ _ _ _ (fun p _ => Or.inr hk),
      lookup2_dinsert2_ne _ _ _ _ _ _ (Or.inr hk)] at hne
    exact hne rfl

/-- Witness for C8: a row with no key-column cell and default value
"Hello" produces the entry "Hello" ↦ "Hello" under the default language
"en". -/
theorem self_keying_fallback_witness :
    textId ⟨[], 1, some 0, 1, [], "en".data, 2, 2⟩ [(1, "Hello".data)] =
        (if keyValue ⟨[], 1, some 0, 1, [], "en".data, 2, 2⟩
              [(1, "Hello".data)] ≠ [] then
            keyValue ⟨[], 1, some 0, 1, [], "en".data, 2, 2⟩
              [(1, "Hello".data)]
          else defaultValue ⟨[], 1, some 0, 1, [], "en".data, 2, 2⟩
            [(1, "Hello".data)]) ∧
      ∃ acc', processDataRow ⟨[], 1, some 0, 1, [], "en".data, 2, 2⟩ []
            [⟨"B2".data, none, some "Hello".data⟩] = .ok acc' ∧
        lookup2 acc' "en".data
            (textId ⟨[], 1, some 0, 1, [], "en".data, 2, 2⟩
              [(1, "Hello".data)]) =
          some (defaultValue ⟨[], 1, some 0, 1, [], "en".data, 2, 2⟩
            [(1, "Hello".data)]) ∧
        ∀ l k, lookup2 acc' l k ≠ lookup2 [] l k →
          k = textId ⟨[], 1, some 0, 1, [], "en".data, 2, 2⟩
            [(1, "Hello".data)] :=
  self_keying_fallback ⟨[], 1, some 0, 1, [], "en".data, 2, 2⟩ []
    [⟨"B2".data, none, some "Hello".data⟩] [(1, "Hello".data)]
    (by rfl) (by decide) (by decide)

/-! ## Determinism (claim C9) -/

/-- C9: the conversion is deterministic — equal parsed workbook inputs and
equal options produce the same result mapping and byte-identical
serialized output.  The embedding is a pure function of the shared-string
table, the row list and the options, with dict iteration order fixed by
insertion order, so equal inputs cannot diverge. -/
theorem conversion_deterministic (s1 s2 : List PStr) (r1 r2 : List Row)
    (o1 o2 : Options) (h1 : s1 = s2) (h2 : r1 = r2) (h3 : o1 = o2) :
    convert s1 r1 o1 = convert s2 r2 o2 ∧
      writtenOutput s1 r1 o1 = writtenOutput s2 r2 o2 := by
  subst h1
  subst h2
  subst h3
  exact ⟨rfl, rfl⟩

/-- Witness for C9 at a concrete workbook. -/
theorem conversion_deterministic_witness :
    convert [] [⟨1, [⟨"A1".data, none, some "default".data⟩]⟩,
        ⟨2, [⟨"A2".data, none, some "hi".data⟩]⟩]
        ⟨2, none, "key".data, "default".data, "en".data, [], true⟩ =
      convert [] [⟨1, [⟨"A1".data, none, some "default".data⟩]⟩,
        ⟨2, [⟨"A2".data, none, some "hi".data⟩]⟩]
        ⟨2, none, "key".data, "default".data, "en".data, [], true⟩ ∧
      writtenOutput [] [⟨1, [⟨"A1".data, none, some "default".data⟩]⟩,
        ⟨2, [⟨"A2".data, none, some "hi".data⟩]⟩]
        ⟨2, none, "key".data, "default".data, "en".data, [], true⟩ =
      writtenOutput [] [⟨1, [⟨"A1".data, none, some "default".data⟩]⟩,
        ⟨2, [⟨"A2".data, none, some "hi".data⟩]⟩]
        ⟨2, none, "key".data, "default".data, "en".data, [], true⟩ :=
  conversion_deterministic _ _ _ _ _ _ rfl rfl rfl

end Excel2Json
